import Mathlib

/-!
Verification development for the tile summarizing processor
(`granule_ingester/processors/TileSummarizingProcessor.py`).

The Python code is shallowly embedded below.  Floating-point sample values
are modelled as `Val`: a finite real number, NaN, or one of the two
infinities.  Arrays are modelled as lists of `Val`; a grid tile's
two-dimensional `variable_data` is a list of rows.  numpy reductions
(`nanmin`, `nanmax`, `nanmean`, masked `min`/`max`, `numpy.ma.average`) are
embedded by their documented semantics: `nanmin`/`nanmax` skip NaNs but keep
infinities, `masked_invalid` masks every non-finite entry, `nanmean` averages
the non-NaN entries (so infinities propagate), and `numpy.ma.average` sums
`data * weight` over the entries whose data and weight are both unmasked and
divides by the corresponding weight sum.  Reductions over an empty array
raise (modelled as `ProcErr.valueError`), reductions over an all-masked
array produce NaN.  The protobuf `time` field is either an absent value, a
scalar integer (falsy when zero, as in `if tile_data.time:`), or a decoded
array of timestamps.  The dataset is an association list from variable name
to its attributes; indexing a missing key raises (`ProcErr.keyError`), as
Python mapping indexing does.
-/

/-- A floating-point sample value: a finite real, NaN, or an infinity. -/
inductive Val where
  | fin (x : ℝ)
  | nan
  | pinf
  | ninf

/-- `numpy.isnan`. -/
def Val.isNan : Val → Bool
  | .nan => true
  | _ => false

/-- The value is finite (neither NaN nor an infinity). -/
def Val.isFin : Val → Bool
  | .fin _ => true
  | _ => false

def Val.isPinf : Val → Bool
  | .pinf => true
  | _ => false

def Val.isNinf : Val → Bool
  | .ninf => true
  | _ => false

/-- The finite payload of a value, if any. -/
def Val.toFin : Val → Option ℝ
  | .fin x => some x
  | _ => none

/-- IEEE-style comparison on sample values: any comparison involving NaN is
false, the infinities compare as extreme elements. -/
def Val.le : Val → Val → Prop
  | .fin x, .fin y => x ≤ y
  | .fin _, .pinf => True
  | .ninf, .fin _ => True
  | .ninf, .ninf => True
  | .ninf, .pinf => True
  | .pinf, .pinf => True
  | _, _ => False

/-- The finite entries of an array (the unmasked data of
`numpy.ma.masked_invalid`). -/
def finList (l : List Val) : List ℝ := l.filterMap Val.toFin

/-- One step of `numpy.nanmin`: NaN operands are skipped, the infinities are
extreme elements.  Only ever applied to non-NaN operands in this file. -/
noncomputable def vmin : Val → Val → Val
  | .nan, b => b
  | a, .nan => a
  | .ninf, _ => .ninf
  | _, .ninf => .ninf
  | .pinf, b => b
  | a, .pinf => a
  | .fin x, .fin y => .fin (min x y)

/-- One step of `numpy.nanmax`. -/
noncomputable def vmax : Val → Val → Val
  | .nan, b => b
  | a, .nan => a
  | .pinf, _ => .pinf
  | _, .pinf => .pinf
  | .ninf, b => b
  | a, .ninf => a
  | .fin x, .fin y => .fin (max x y)

/-- `numpy.nanmin` over a nonempty array: the minimum of the non-NaN
entries (infinities participate), NaN when every entry is NaN. -/
noncomputable def nanminCore (l : List Val) : Val :=
  match l.filter (fun v => !v.isNan) with
  | [] => .nan
  | x :: xs => xs.foldl vmin x

/-- `numpy.nanmax` over a nonempty array. -/
noncomputable def nanmaxCore (l : List Val) : Val :=
  match l.filter (fun v => !v.isNan) with
  | [] => .nan
  | x :: xs => xs.foldl vmax x

/-- `numpy.nanmin(data).item()`: raises (`none`) on an empty array. -/
noncomputable def nanminL (l : List Val) : Option Val :=
  if l.isEmpty then none else some (nanminCore l)

noncomputable def nanmaxL (l : List Val) : Option Val :=
  if l.isEmpty then none else some (nanmaxCore l)

/-- `numpy.nanmin(numpy.ma.masked_invalid(l)).item()`: the minimum of the
finite entries; NaN when every entry is masked. -/
noncomputable def maskedMinCore (l : List Val) : Val :=
  match finList l with
  | [] => .nan
  | x :: xs => .fin (xs.foldl min x)

noncomputable def maskedMaxCore (l : List Val) : Val :=
  match finList l with
  | [] => .nan
  | x :: xs => .fin (xs.foldl max x)

noncomputable def maskedMinL (l : List Val) : Option Val :=
  if l.isEmpty then none else some (maskedMinCore l)

noncomputable def maskedMaxL (l : List Val) : Option Val :=
  if l.isEmpty then none else some (maskedMaxCore l)

/-- `numpy.radians`. -/
noncomputable def radians (x : ℝ) : ℝ := x * (Real.pi / 180)

/-- The element-aligned (data, latitude) pairs that survive masking: both
the data entry and its latitude must be finite.  This is the set of entries
`numpy.ma.average` actually averages when the data array is
`masked_invalid` and the weights come from a masked latitude array. -/
def validPairs (data lats : List Val) : List (ℝ × ℝ) :=
  (data.zip lats).filterMap fun p =>
    match p.1, p.2 with
    | .fin x, .fin y => some (x, y)
    | _, _ => none

/-- `numpy.ma.average(data, weights=numpy.cos(numpy.radians(lats)))` over
the surviving pairs: `sum(d * w) / sum(w)`.  A zero weight sum reproduces
the float division of the zero denominator (0/0 = NaN, otherwise a signed
infinity). -/
noncomputable def wavg (ps : List (ℝ × ℝ)) : Val :=
  let den := (ps.map fun p => Real.cos (radians p.2)).sum
  let num := (ps.map fun p => p.1 * Real.cos (radians p.2)).sum
  if den = 0 then (if num = 0 then .nan else if 0 < num then .pinf else .ninf)
  else .fin (num / den)

/-- `TileSummarizingProcessor.calculate_mean_for_swath_tile`. -/
noncomputable def calculate_mean_for_swath_tile (variable_data latitudes : List Val) : Val :=
  wavg (validPairs variable_data latitudes)

/-- `TileSummarizingProcessor.calculate_mean_for_grid_tile`: the data is
flattened row-major and each latitude's weight is repeated once per
longitude (`numpy.repeat(latitudes, len(longitudes))`). -/
noncomputable def calculate_mean_for_grid_tile (variable_data : List (List Val))
    (latitudes longitudes : List Val) : Val :=
  calculate_mean_for_swath_tile variable_data.flatten
    ((latitudes.map fun la => List.replicate longitudes.length la).flatten)

/-- `numpy.nanmean(data).item()`: the mean of the non-NaN entries;
infinities are kept and propagate into the mean. -/
noncomputable def nanmeanL (l : List Val) : Val :=
  let nn := l.filter fun v => !v.isNan
  if nn.isEmpty then .nan
  else if nn.any Val.isPinf && nn.any Val.isNinf then .nan
  else if nn.any Val.isPinf then .pinf
  else if nn.any Val.isNinf then .ninf
  else .fin ((finList l).sum / (nn.length : ℝ))


/-- The protobuf `time` field as the Python code dispatches on it:
absent (falsy), a scalar integer timestamp (falsy when zero), or a decoded
array of integer timestamps. -/
inductive TimeField where
  | absent
  | scalar (t : Int)
  | array (ts : List Int)

inductive TimeErr where
  | noTime
  | valueError

/-- `find_time_min_max`: a falsy time (absent, or the scalar 0) raises
`NoTimeException`; a nonzero scalar yields `(t, t)`; a decoded array yields
`(nanmin, nanmax)`, which raises a `ValueError` (not a `NoTimeException`)
on an empty array. -/
def find_time_min_max : TimeField → Except TimeErr (Int × Int)
  | .absent => .error .noTime
  | .scalar t => if t = 0 then .error .noTime else .ok (t, t)
  | .array [] => .error .valueError
  | .array (h :: r) => .ok (r.foldl min h, r.foldl max h)

/-- The tagged spatial-layout variant of a tile (`WhichOneof("tile_type")`):
swath, grid, or any other layout (e.g. `grid_multi_variable_tile`).  Each
variant carries the decoded latitude, longitude and sample arrays plus the
time field; a grid tile's data is two-dimensional (a list of rows). -/
inductive TileData where
  | swath (latitude longitude : List Val) (variable_data : List Val) (time : TimeField)
  | grid (latitude longitude : List Val) (variable_data : List (List Val)) (time : TimeField)
  | other (latitude longitude : List Val) (variable_data : List Val) (time : TimeField)

def TileData.latitude : TileData → List Val
  | .swath la _ _ _ => la
  | .grid la _ _ _ => la
  | .other la _ _ _ => la

def TileData.longitude : TileData → List Val
  | .swath _ lo _ _ => lo
  | .grid _ lo _ _ => lo
  | .other _ lo _ _ => lo

/-- The sample array, flattened row-major as numpy reductions see it. -/
def TileData.flatData : TileData → List Val
  | .swath _ _ d _ => d
  | .grid _ _ d _ => d.flatten
  | .other _ _ d _ => d

def TileData.time : TileData → TimeField
  | .swath _ _ _ t => t
  | .grid _ _ _ t => t
  | .other _ _ _ t => t

/-- The shape constraint `numpy.ma.average` enforces before it will accept
the weights: for a swath tile the weights (one per latitude) must be
element-aligned with the data; for a grid tile the repeated weights
(`len(latitudes) * len(longitudes)` of them) must match the flattened data
size.  The fallback branch imposes nothing. -/
def TileData.shapeOk : TileData → Bool
  | .swath la _ d _ => d.length == la.length
  | .grid la lo d _ => d.flatten.length == la.length * lo.length
  | .other _ _ _ _ => true

/-- The latitude-weighted (or fallback) mean, exactly as `process`
dispatches on the tile type. -/
noncomputable def meanOf : TileData → Val
  | .swath la _ d _ => calculate_mean_for_swath_tile d la
  | .grid la lo d _ => calculate_mean_for_grid_tile d la lo
  | .other _ _ d _ => nanmeanL d

structure BBox where
  lat_min : Val
  lat_max : Val
  lon_min : Val
  lon_max : Val

structure Stats where
  min : Val
  max : Val
  mean : Val
  count : Nat
  min_time : Option Int
  max_time : Option Int

structure TileSummary where
  dataset_name : String
  granule : String
  tile_id : String
  data_var_name : String
  standard_name : String
  bbox : BBox
  stats : Stats

/-- The default `nexusproto.TileSummary()` built when the tile carries no
prior summary: empty strings, zeroed box and stats, no time range. -/
def defaultSummary : TileSummary :=
  { dataset_name := "", granule := "", tile_id := "", data_var_name := "",
    standard_name := "",
    bbox := ⟨.fin 0, .fin 0, .fin 0, .fin 0⟩,
    stats := { min := .fin 0, max := .fin 0, mean := .fin 0, count := 0,
               min_time := none, max_time := none } }

/-- A tile: its populated spatial-layout variant plus an optional prior
summary. -/
structure Tile where
  tileData : TileData
  summary : Option TileSummary

/-- Per-variable metadata of the external dataset
(`dataset.variables[name].attrs`). -/
structure VarAttrs where
  standard_name : Option String

/-- The external dataset: a read-only mapping from variable name to its
attributes.  Indexing a missing key raises `KeyError`, as for any Python
mapping. -/
structure Dataset where
  vars : List (String × VarAttrs)

inductive ProcErr where
  | valueError
  | keyError

/-- `TileSummarizingProcessor.process`.  The numbered stages mirror the
Python statement order: decode and mask the coordinate arrays, compute the
bounding box and the value extrema (each of which raises on an empty
array), check the weight shape, compute the layout-specific mean, the
count, the temporal extent (catching only `NoTimeException`), then the
best-effort standard-name lookup whose mapping indexing raises `KeyError`
on a missing key.  The fresh summary starts from the tile's prior summary
when one is present. -/
noncomputable def process (dataset_name : String) (tile : Tile) (ds : Dataset) :
    Except ProcErr Tile :=
  let td := tile.tileData
  match maskedMinL td.latitude, maskedMaxL td.latitude,
        maskedMinL td.longitude, maskedMaxL td.longitude,
        nanminL td.flatData, nanmaxL td.flatData with
  | some latMin, some latMax, some lonMin, some lonMax, some dMin, some dMax =>
    if td.shapeOk then
      let s0 := tile.summary.getD defaultSummary
      let stats1 : Stats :=
        { min := dMin, max := dMax, mean := meanOf td,
          count := td.flatData.length - (td.flatData.filter Val.isNan).length,
          min_time := s0.stats.min_time, max_time := s0.stats.max_time }
      match find_time_min_max td.time with
      | .error .valueError => .error .valueError
      | tres =>
        let stats2 : Stats :=
          match tres with
          | .ok (a, b) => { stats1 with min_time := some a, max_time := some b }
          | _ => stats1
        match ds.vars.lookup s0.data_var_name with
        | none => .error .keyError
        | some attrs =>
          let sn : String :=
            match attrs.standard_name with
            | some s => if s = "" then s0.standard_name else s
            | none => s0.standard_name
          .ok { tile with summary := some { s0 with
                  dataset_name := dataset_name,
                  standard_name := sn,
                  bbox := ⟨latMin, latMax, lonMin, lonMax⟩,
                  stats := stats2 } }
    else .error .valueError
  | _, _, _, _, _, _ => .error .valueError

/-! Derived form of the summary `process` writes back on success, used by
the inversion and evaluation lemmas below. -/

/-- The stats block `process` assembles on success. -/
noncomputable def outStats (tile : Tile) : Stats :=
  let td := tile.tileData
  let s0 := tile.summary.getD defaultSummary
  let base : Stats :=
    { min := nanminCore td.flatData, max := nanmaxCore td.flatData,
      mean := meanOf td,
      count := td.flatData.length - (td.flatData.filter Val.isNan).length,
      min_time := s0.stats.min_time, max_time := s0.stats.max_time }
  match find_time_min_max td.time with
  | .ok (a, b) => { base with min_time := some a, max_time := some b }
  | _ => base

/-- The summary `process` writes back on success. -/
noncomputable def outSummary (dataset_name : String) (tile : Tile) (attrs : VarAttrs) :
    TileSummary :=
  let td := tile.tileData
  let s0 := tile.summary.getD defaultSummary
  { s0 with
    dataset_name := dataset_name,
    standard_name :=
      (match attrs.standard_name with
       | some s => if s = "" then s0.standard_name else s
       | none => s0.standard_name),
    bbox := ⟨maskedMinCore td.latitude, maskedMaxCore td.latitude,
             maskedMinCore td.longitude, maskedMaxCore td.longitude⟩,
    stats := outStats tile }

/-- The tile `process` returns on success. -/
noncomputable def outTile (dataset_name : String) (tile : Tile) (attrs : VarAttrs) : Tile :=
  { tile with summary := some (outSummary dataset_name tile attrs) }

theorem guarded_some {α : Type} {l : List Val} {f : List Val → α} {v : α} :
    (if l.isEmpty then none else some (f l)) = some v ↔ l ≠ [] ∧ v = f l := by
  by_cases h : l.isEmpty
  · simp [h, List.isEmpty_iff.mp h]
  · simp only [h, if_false]
    constructor
    · intro hv
      refine ⟨fun hl => h (by simp [hl]), (Option.some_injective _ hv).symm⟩
    · intro ⟨_, hv⟩
      exact congrArg some hv.symm

theorem maskedMinL_eq_some {l : List Val} {v : Val} :
    maskedMinL l = some v ↔ l ≠ [] ∧ v = maskedMinCore l := by
  simp only [maskedMinL]; exact guarded_some

theorem maskedMaxL_eq_some {l : List Val} {v : Val} :
    maskedMaxL l = some v ↔ l ≠ [] ∧ v = maskedMaxCore l := by
  simp only [maskedMaxL]; exact guarded_some

theorem nanminL_eq_some {l : List Val} {v : Val} :
    nanminL l = some v ↔ l ≠ [] ∧ v = nanminCore l := by
  simp only [nanminL]; exact guarded_some

theorem nanmaxL_eq_some {l : List Val} {v : Val} :
    nanmaxL l = some v ↔ l ≠ [] ∧ v = nanmaxCore l := by
  simp only [nanmaxL]; exact guarded_some

/-- Inversion of a successful `process` run: every guard passed and the
result is the assembled output tile. -/
theorem process_ok_inv {c : String} {tile : Tile} {ds : Dataset} {t' : Tile}
    (hp : process c tile ds = Except.ok t') :
    tile.tileData.latitude ≠ [] ∧ tile.tileData.longitude ≠ [] ∧
    tile.tileData.flatData ≠ [] ∧ tile.tileData.shapeOk = true ∧
    find_time_min_max tile.tileData.time ≠ Except.error TimeErr.valueError ∧
    ∃ attrs, ds.vars.lookup (tile.summary.getD defaultSummary).data_var_name = some attrs ∧
      t' = outTile c tile attrs := by
  unfold process at hp
  dsimp only at hp
  split at hp
  next latMin latMax lonMin lonMax dMin dMax e1 e2 e3 e4 e5 e6 =>
    obtain ⟨hlat, hv1⟩ := maskedMinL_eq_some.mp e1
    obtain ⟨-, hv2⟩ := maskedMaxL_eq_some.mp e2
    obtain ⟨hlon, hv3⟩ := maskedMinL_eq_some.mp e3
    obtain ⟨-, hv4⟩ := maskedMaxL_eq_some.mp e4
    obtain ⟨hdat, hv5⟩ := nanminL_eq_some.mp e5
    obtain ⟨-, hv6⟩ := nanmaxL_eq_some.mp e6
    by_cases hshape : tile.tileData.shapeOk
    · rw [if_pos hshape] at hp
      split at hp
      · exact absurd hp (by simp)
      next tres hne =>
        split at hp
        · exact absurd hp (by simp)
        next attrs hlook =>
          refine ⟨hlat, hlon, hdat, hshape, hne, attrs, hlook, ?_⟩
          have ht' := (Except.ok.injEq _ _).mp hp
          subst hv1 hv2 hv3 hv4 hv5 hv6
          rw [← ht']
          unfold outTile outSummary outStats
          dsimp only
    · rw [if_neg hshape] at hp
      exact absurd hp (by simp)
  next =>
    exact absurd hp (by simp)

/-- Evaluation of a `process` run whose guards all pass: the result is the
assembled output tile. -/
theorem process_eq_ok {c : String} {tile : Tile} {ds : Dataset} {attrs : VarAttrs}
    (hlat : tile.tileData.latitude ≠ []) (hlon : tile.tileData.longitude ≠ [])
    (hdat : tile.tileData.flatData ≠ []) (hshape : tile.tileData.shapeOk = true)
    (htime : find_time_min_max tile.tileData.time ≠ Except.error TimeErr.valueError)
    (hlook : ds.vars.lookup (tile.summary.getD defaultSummary).data_var_name = some attrs) :
    process c tile ds = Except.ok (outTile c tile attrs) := by
  have hlat' : tile.tileData.latitude.isEmpty = false := by
    simpa using hlat
  have hlon' : tile.tileData.longitude.isEmpty = false := by
    simpa using hlon
  have hdat' : tile.tileData.flatData.isEmpty = false := by
    simpa using hdat
  unfold process
  dsimp only
  rw [show maskedMinL tile.tileData.latitude = some (maskedMinCore tile.tileData.latitude) by
        simp [maskedMinL, hlat'],
      show maskedMaxL tile.tileData.latitude = some (maskedMaxCore tile.tileData.latitude) by
        simp [maskedMaxL, hlat'],
      show maskedMinL tile.tileData.longitude = some (maskedMinCore tile.tileData.longitude) by
        simp [maskedMinL, hlon'],
      show maskedMaxL tile.tileData.longitude = some (maskedMaxCore tile.tileData.longitude) by
        simp [maskedMaxL, hlon'],
      show nanminL tile.tileData.flatData = some (nanminCore tile.tileData.flatData) by
        simp [nanminL, hdat'],
      show nanmaxL tile.tileData.flatData = some (nanmaxCore tile.tileData.flatData) by
        simp [nanmaxL, hdat']]
  dsimp only
  rw [if_pos hshape, hlook]
  unfold outTile outSummary outStats
  dsimp only
  cases ht : find_time_min_max tile.tileData.time with
  | ok p => cases p; rfl
  | error e =>
    cases e with
    | noTime => rfl
    | valueError => exact absurd ht htime

theorem outTile_summary_eq (c : String) (tile : Tile) (attrs : VarAttrs) :
    (outTile c tile attrs).summary = some (outSummary c tile attrs) := rfl

theorem outSummary_stats (c : String) (tile : Tile) (attrs : VarAttrs) :
    (outSummary c tile attrs).stats = outStats tile := rfl

theorem outStats_mean (tile : Tile) : (outStats tile).mean = meanOf tile.tileData := by
  unfold outStats
  dsimp only
  cases h : find_time_min_max tile.tileData.time with
  | ok p => cases p; rfl
  | error e => rfl

theorem outStats_min (tile : Tile) :
    (outStats tile).min = nanminCore tile.tileData.flatData := by
  unfold outStats
  dsimp only
  cases h : find_time_min_max tile.tileData.time with
  | ok p => cases p; rfl
  | error e => rfl

theorem outStats_max (tile : Tile) :
    (outStats tile).max = nanmaxCore tile.tileData.flatData := by
  unfold outStats
  dsimp only
  cases h : find_time_min_max tile.tileData.time with
  | ok p => cases p; rfl
  | error e => rfl

theorem outStats_count (tile : Tile) :
    (outStats tile).count =
      tile.tileData.flatData.length -
        (tile.tileData.flatData.filter Val.isNan).length := by
  unfold outStats
  dsimp only
  cases h : find_time_min_max tile.tileData.time with
  | ok p => cases p; rfl
  | error e => rfl

theorem outStats_time_of_ok {tile : Tile} {a b : Int}
    (h : find_time_min_max tile.tileData.time = Except.ok (a, b)) :
    (outStats tile).min_time = some a ∧ (outStats tile).max_time = some b := by
  unfold outStats
  dsimp only
  rw [h]
  exact ⟨rfl, rfl⟩

theorem outStats_time_of_noTime {tile : Tile}
    (h : find_time_min_max tile.tileData.time = Except.error TimeErr.noTime) :
    (outStats tile).min_time = (tile.summary.getD defaultSummary).stats.min_time ∧
    (outStats tile).max_time = (tile.summary.getD defaultSummary).stats.max_time := by
  unfold outStats
  dsimp only
  rw [h]
  exact ⟨rfl, rfl⟩

/-! Exact values of the cosine weight at the latitudes used in the
spec's examples. -/

theorem cos_radians_zero : Real.cos (radians 0) = 1 := by
  have h : radians 0 = 0 := by unfold radians; ring
  rw [h, Real.cos_zero]

theorem cos_radians_sixty : Real.cos (radians 60) = 1 / 2 := by
  have h : radians 60 = Real.pi / 3 := by unfold radians; ring
  rw [h, Real.cos_pi_div_three]

theorem cos_radians_onetwenty : Real.cos (radians 120) = -(1 / 2) := by
  have h : radians 120 = Real.pi - Real.pi / 3 := by unfold radians; ring
  rw [h, Real.cos_pi_sub, Real.cos_pi_div_three]

/-! Characterizations of the surviving (data, latitude) pairs. -/

theorem validPairs_map_fin (data : List Val) (ll : List ℝ) :
    validPairs data (ll.map Val.fin) =
      (data.zip ll).filterMap fun p => (Val.toFin p.1).map fun x => (x, p.2) := by
  induction data generalizing ll with
  | nil => simp [validPairs]
  | cons d rest ih =>
    cases ll with
    | nil => simp [validPairs]
    | cons la rest2 =>
      have ihr := ih rest2
      cases d <;>
        simp [validPairs, Val.toFin, List.filterMap_cons] at ihr ⊢ <;>
        exact ihr

theorem validPairs_all_fin (dl ll : List ℝ) :
    validPairs (dl.map Val.fin) (ll.map Val.fin) = dl.zip ll := by
  rw [validPairs_map_fin]
  induction dl generalizing ll with
  | nil => simp
  | cons x rest ih =>
    cases ll with
    | nil => simp
    | cons la rest2 => simpa [Val.toFin] using ih rest2

theorem wavg_of_den_ne {ps : List (ℝ × ℝ)}
    (h : (ps.map fun p => Real.cos (radians p.2)).sum ≠ 0) :
    wavg ps = Val.fin ((ps.map fun p => p.1 * Real.cos (radians p.2)).sum /
      (ps.map fun p => Real.cos (radians p.2)).sum) := by
  unfold wavg
  dsimp only
  rw [if_neg h]

/-- C1: for every swath-layout tile whose latitudes are (finite) reals,
`process` sets `stats.mean` to the latitude-cosine-weighted average of the
valid (finite) `variable_data` entries, each weighted by the cosine of its
own element-aligned latitude in radians; in particular, for latitudes
`[0, 60]` and data `[10, 20]` the mean is `(10·cos 0° + 20·cos 60°) /
(cos 0° + cos 60°) = 40/3 = 13.33...`. -/
theorem C1_swath_weighted_mean {c : String} {ds : Dataset} {tile t' : Tile}
    {data : List Val} {ll : List ℝ} {lons : List Val} {tf : TimeField}
    (htd : tile.tileData = TileData.swath (ll.map Val.fin) lons data tf)
    (hp : process c tile ds = Except.ok t')
    (hden : ((((data.zip ll).filterMap fun p => (Val.toFin p.1).map fun x => (x, p.2)).map
        fun p => Real.cos (radians p.2)).sum) ≠ 0) :
    (t'.summary.getD defaultSummary).stats.mean =
      Val.fin (((((data.zip ll).filterMap fun p => (Val.toFin p.1).map fun x => (x, p.2)).map
          fun p => p.1 * Real.cos (radians p.2)).sum) /
        ((((data.zip ll).filterMap fun p => (Val.toFin p.1).map fun x => (x, p.2)).map
          fun p => Real.cos (radians p.2)).sum)) ∧
    (data = [Val.fin 10, Val.fin 20] → ll = [0, 60] →
      (t'.summary.getD defaultSummary).stats.mean = Val.fin (40 / 3)) := by
  obtain ⟨-, -, -, -, -, attrs, -, ht'⟩ := process_ok_inv hp
  subst ht'
  have hmean : ((outTile c tile attrs).summary.getD defaultSummary).stats.mean
      = meanOf tile.tileData := by
    simp only [outTile_summary_eq, Option.getD_some, outSummary_stats, outStats_mean]
  rw [hmean, htd]
  have hcalc : meanOf (TileData.swath (ll.map Val.fin) lons data tf)
      = wavg (validPairs data (ll.map Val.fin)) := rfl
  rw [hcalc, validPairs_map_fin]
  refine ⟨wavg_of_den_ne hden, ?_⟩
  rintro rfl rfl
  rw [wavg_of_den_ne hden]
  simp only [List.zip_cons_cons, List.zip_nil_right, List.filterMap_cons, Val.toFin,
    Option.map_some', List.filterMap_nil, List.map_cons, List.map_nil, List.sum_cons,
    List.sum_nil]
  rw [cos_radians_zero, cos_radians_sixty]
  norm_num

/-! Concrete tiles and datasets used to instantiate the theorems. -/

/-- A prior summary carrying identifying fields, as produced upstream. -/
def exSum : TileSummary :=
  { defaultSummary with granule := "g.nc", tile_id := "t1", data_var_name := "sst" }

def exAttrs : VarAttrs := ⟨some "sea_surface_temperature"⟩

/-- A dataset mapping the variable `sst`. -/
def exDs : Dataset := ⟨[("sst", exAttrs)]⟩

/-- A dataset with no variables at all. -/
def dsEmpty : Dataset := ⟨[]⟩

/-- The spec's swath example: latitudes `[0, 60]`, data `[10, 20]`. -/
def w1Tile : Tile :=
  ⟨TileData.swath [Val.fin 0, Val.fin 60] [Val.fin 5] [Val.fin 10, Val.fin 20]
      TimeField.absent,
   some exSum⟩

theorem C1_swath_weighted_mean_witness :
    process "d" w1Tile exDs = Except.ok (outTile "d" w1Tile exAttrs) ∧
    ((outTile "d" w1Tile exAttrs).summary.getD defaultSummary).stats.mean =
      Val.fin (40 / 3) := by
  have hp : process "d" w1Tile exDs = Except.ok (outTile "d" w1Tile exAttrs) :=
    process_eq_ok (List.cons_ne_nil _ _) (List.cons_ne_nil _ _) (List.cons_ne_nil _ _)
      rfl (by simp [w1Tile, find_time_min_max, TileData.time]) rfl
  refine ⟨hp, ?_⟩
  have h := @C1_swath_weighted_mean "d" exDs w1Tile (outTile "d" w1Tile exAttrs)
      [Val.fin 10, Val.fin 20] [0, 60] [Val.fin 5] TimeField.absent rfl hp
      (by
        simp only [List.zip_cons_cons, List.zip_nil_right, List.filterMap_cons, Val.toFin,
          Option.map_some', List.filterMap_nil, List.map_cons, List.map_nil, List.sum_cons,
          List.sum_nil]
        rw [cos_radians_zero, cos_radians_sixty]
        norm_num)
  exact h.2 rfl rfl

theorem validPairs_append {X1 X2 Y1 Y2 : List Val} (h : X1.length = Y1.length) :
    validPairs (X1 ++ X2) (Y1 ++ Y2) = validPairs X1 Y1 ++ validPairs X2 Y2 := by
  unfold validPairs
  rw [List.zip_append h, List.filterMap_append]

theorem validPairs_cons_fin (x la : ℝ) (X Y : List Val) :
    validPairs (Val.fin x :: X) (Val.fin la :: Y) = (x, la) :: validPairs X Y := rfl

theorem validPairs_replicate (r : List ℝ) (la : ℝ) {n : Nat} (h : r.length = n) :
    validPairs (r.map Val.fin) (List.replicate n (Val.fin la)) =
      r.map fun x => (x, la) := by
  induction r generalizing n with
  | nil => simp [validPairs]
  | cons x rest ih =>
    cases n with
    | zero => simp at h
    | succ m =>
      have hm : rest.length = m := by simpa using h
      rw [List.map_cons, List.replicate_succ, validPairs_cons_fin, ih hm]
      rfl

/-- Flattening a latitude-major grid: the surviving pairs of the flattened
data against the longitude-repeated latitudes are exactly the row-wise
pairs of each data element with its own row latitude. -/
theorem validPairs_grid (rows : List (List ℝ)) (ll : List ℝ) (n : Nat)
    (hrows : rows.length = ll.length) (hrect : ∀ r ∈ rows, r.length = n) :
    validPairs ((rows.map fun r => r.map Val.fin).flatten)
        (((ll.map Val.fin).map fun la => List.replicate n la).flatten) =
      ((rows.zip ll).map fun p => p.1.map fun x => (x, p.2)).flatten := by
  induction rows generalizing ll with
  | nil =>
    cases ll with
    | nil => rfl
    | cons la rest2 => simp at hrows
  | cons r rest ih =>
    cases ll with
    | nil => simp at hrows
    | cons la rest2 =>
      have hr : r.length = n := hrect r (by simp)
      have hrest : ∀ q ∈ rest, q.length = n := fun q hq => hrect q (by simp [hq])
      have hlen : (r.map Val.fin).length = (List.replicate n (Val.fin la)).length := by
        simp [hr]
      simp only [List.map_cons, List.flatten_cons, List.zip_cons_cons]
      rw [validPairs_append hlen, validPairs_replicate r la hr,
        ih rest2 (by simpa using hrows) hrest]

theorem flat_pairs_num (Z : List (List ℝ × ℝ)) :
    ((Z.map fun p => p.1.map fun x => (x, p.2)).flatten.map
        fun q => q.1 * Real.cos (radians q.2)).sum =
      (Z.map fun p => (p.1.map fun x => x * Real.cos (radians p.2)).sum).sum := by
  induction Z with
  | nil => rfl
  | cons p rest ih =>
    simp only [List.map_cons, List.flatten_cons, List.map_append, List.sum_append, ih,
      List.map_map]
    rfl

theorem flat_pairs_den (Z : List (List ℝ × ℝ)) (n : Nat)
    (hn : ∀ p ∈ Z, p.1.length = n) :
    ((Z.map fun p => p.1.map fun x => (x, p.2)).flatten.map
        fun q => Real.cos (radians q.2)).sum =
      (Z.map fun p => (n : ℝ) * Real.cos (radians p.2)).sum := by
  induction Z with
  | nil => rfl
  | cons p rest ih =>
    have hp : p.1.length = n := hn p (by simp)
    have hrest : ∀ q ∈ rest, q.1.length = n := fun q hq => hn q (by simp [hq])
    simp only [List.map_cons, List.flatten_cons, List.map_append, List.sum_append,
      ih hrest, List.map_map, List.sum_cons]
    congr 1
    have : ((fun q : ℝ × ℝ => Real.cos (radians q.2)) ∘ fun x => (x, p.2)) =
        fun _ : ℝ => Real.cos (radians p.2) := rfl
    rw [this, List.map_const', List.sum_replicate, hp, nsmul_eq_mul]

/-- C2: for every grid-layout tile whose `variable_data` is latitude-major
(rows indexed by latitude, columns by longitude), `process` sets
`stats.mean` to the weighted average in which element `(i, j)` has weight
`cos(radians(latitude[i]))` — each latitude's weight repeated across every
longitude index; in particular, for latitudes `[0, 60]` and the 2×2 block
`[[10,10],[20,20]]` the mean equals the swath example's value `40/3 =
13.33...`. -/
theorem C2_grid_weighted_mean {c : String} {ds : Dataset} {tile t' : Tile}
    {rows : List (List ℝ)} {ll : List ℝ} {lons : List Val} {tf : TimeField}
    (htd : tile.tileData =
      TileData.grid (ll.map Val.fin) lons (rows.map fun r => r.map Val.fin) tf)
    (hrows : rows.length = ll.length)
    (hrect : ∀ r ∈ rows, r.length = lons.length)
    (hp : process c tile ds = Except.ok t')
    (hden : ((ll.map fun la => (lons.length : ℝ) * Real.cos (radians la)).sum) ≠ 0) :
    (t'.summary.getD defaultSummary).stats.mean =
      Val.fin ((((rows.zip ll).map
          fun p => (p.1.map fun x => x * Real.cos (radians p.2)).sum).sum) /
        ((ll.map fun la => (lons.length : ℝ) * Real.cos (radians la)).sum)) ∧
    (rows = [[10, 10], [20, 20]] → ll = [0, 60] →
      (t'.summary.getD defaultSummary).stats.mean = Val.fin (40 / 3) ∧
      calculate_mean_for_swath_tile [Val.fin 10, Val.fin 20] [Val.fin 0, Val.fin 60] =
        Val.fin (40 / 3)) := by
  obtain ⟨-, -, -, -, -, attrs, -, ht'⟩ := process_ok_inv hp
  subst ht'
  have hmean : ((outTile c tile attrs).summary.getD defaultSummary).stats.mean
      = meanOf tile.tileData := by
    simp only [outTile_summary_eq, Option.getD_some, outSummary_stats, outStats_mean]
  have hzn : ∀ p ∈ rows.zip ll, (Prod.fst p).length = lons.length := by
    intro p hpz
    obtain ⟨a, b⟩ := p
    exact hrect a (List.of_mem_zip hpz).1
  have hkey : meanOf tile.tileData =
      Val.fin ((((rows.zip ll).map
          fun p => (p.1.map fun x => x * Real.cos (radians p.2)).sum).sum) /
        ((ll.map fun la => (lons.length : ℝ) * Real.cos (radians la)).sum)) := by
    rw [htd]
    have hcalc : meanOf
        (TileData.grid (ll.map Val.fin) lons (rows.map fun r => r.map Val.fin) tf)
        = wavg (validPairs ((rows.map fun r => r.map Val.fin).flatten)
            (((ll.map Val.fin).map fun la => List.replicate lons.length la).flatten)) := rfl
    rw [hcalc, validPairs_grid rows ll lons.length hrows hrect]
    have hd : ((((rows.zip ll).map fun p => p.1.map fun x => (x, p.2)).flatten).map
        fun q => Real.cos (radians q.2)).sum =
        ((ll.map fun la => (lons.length : ℝ) * Real.cos (radians la)).sum) := by
      rw [flat_pairs_den _ lons.length hzn]
      have hsnd : List.map Prod.snd (rows.zip ll) = ll :=
        List.map_snd_zip rows ll hrows.symm.le
      calc ((rows.zip ll).map fun p => (lons.length : ℝ) * Real.cos (radians p.2)).sum
          = ((List.map Prod.snd (rows.zip ll)).map
              fun la => (lons.length : ℝ) * Real.cos (radians la)).sum := by
            rw [List.map_map]
            rfl
        _ = ((ll.map fun la => (lons.length : ℝ) * Real.cos (radians la)).sum) := by
            rw [hsnd]
    have hn := flat_pairs_num (rows.zip ll)
    rw [wavg_of_den_ne (by rw [hd]; exact hden), hn, hd]
  refine ⟨by rw [hmean, hkey], ?_⟩
  rintro rfl rfl
  have h2 : lons.length = 2 := (hrect [10, 10] (by simp)).symm
  constructor
  · rw [hmean, hkey, h2]
    simp only [List.zip_cons_cons, List.zip_nil_right, List.map_cons, List.map_nil,
      List.sum_cons, List.sum_nil]
    rw [cos_radians_zero, cos_radians_sixty]
    norm_num
  · show wavg (validPairs [Val.fin 10, Val.fin 20] [Val.fin 0, Val.fin 60]) = Val.fin (40 / 3)
    rw [validPairs_cons_fin, validPairs_cons_fin]
    have hden2 : (([(10, 0), (20, 60)] : List (ℝ × ℝ)).map
        fun p => Real.cos (radians p.2)).sum ≠ 0 := by
      simp only [List.map_cons, List.map_nil, List.sum_cons, List.sum_nil]
      rw [cos_radians_zero, cos_radians_sixty]
      norm_num
    rw [show validPairs [] [] = ([] : List (ℝ × ℝ)) from rfl]
    rw [wavg_of_den_ne hden2]
    simp only [List.map_cons, List.map_nil, List.sum_cons, List.sum_nil]
    rw [cos_radians_zero, cos_radians_sixty]
    norm_num

/-- The spec's grid example: latitudes `[0, 60]`, two longitudes, data
`[[10,10],[20,20]]` laid out latitude-major. -/
def w2Tile : Tile :=
  ⟨TileData.grid [Val.fin 0, Val.fin 60] [Val.fin 3, Val.fin 4]
      [[Val.fin 10, Val.fin 10], [Val.fin 20, Val.fin 20]] TimeField.absent,
   some exSum⟩

theorem C2_grid_weighted_mean_witness :
    process "d" w2Tile exDs = Except.ok (outTile "d" w2Tile exAttrs) ∧
    ((outTile "d" w2Tile exAttrs).summary.getD defaultSummary).stats.mean =
      Val.fin (40 / 3) := by
  have hp : process "d" w2Tile exDs = Except.ok (outTile "d" w2Tile exAttrs) :=
    process_eq_ok (List.cons_ne_nil _ _) (List.cons_ne_nil _ _)
      (by simp [w2Tile, TileData.flatData])
      rfl (by simp [w2Tile, find_time_min_max, TileData.time]) rfl
  refine ⟨hp, ?_⟩
  have h := @C2_grid_weighted_mean "d" exDs w2Tile (outTile "d" w2Tile exAttrs)
      [[10, 10], [20, 20]] [0, 60] [Val.fin 3, Val.fin 4] TimeField.absent rfl rfl
      (by
        intro r hr
        simp only [List.mem_cons, List.not_mem_nil, or_false] at hr
        rcases hr with rfl | rfl <;> rfl)
      hp
      (by
        simp only [List.length_cons, List.length_nil, List.map_cons, List.map_nil,
          List.sum_cons, List.sum_nil]
        rw [cos_radians_zero, cos_radians_sixty]
        norm_num)
  exact (h.2 rfl rfl).1

theorem count_filter_not_nan (l : List Val) :
    l.length - (l.filter Val.isNan).length = (l.filter fun v => !v.isNan).length := by
  induction l with
  | nil => rfl
  | cons v rest ih =>
    have hle : (rest.filter Val.isNan).length ≤ rest.length := List.length_filter_le _ _
    by_cases hv : v.isNan = true
    · rw [List.filter_cons_of_pos hv, List.filter_cons_of_neg (by simp [hv])]
      simp only [List.length_cons]
      omega
    · rw [List.filter_cons_of_neg (by simpa using hv),
        List.filter_cons_of_pos (by simp [hv])]
      simp only [List.length_cons]
      omega

/-- C3 (amended): for every successful run, `stats.count` is the number of
non-NaN entries of `variable_data`, i.e. the total element count minus the
number of NaN entries.  Infinite entries are NOT subtracted: the code uses
`numpy.isnan`, not a finiteness test. -/
theorem C3_count_non_nan {c : String} {ds : Dataset} {tile t' : Tile}
    (hp : process c tile ds = Except.ok t') :
    (t'.summary.getD defaultSummary).stats.count =
      (tile.tileData.flatData.filter fun v => !v.isNan).length ∧
    (t'.summary.getD defaultSummary).stats.count =
      tile.tileData.flatData.length -
        (tile.tileData.flatData.filter Val.isNan).length := by
  obtain ⟨-, -, -, -, -, attrs, -, ht'⟩ := process_ok_inv hp
  subst ht'
  have h : ((outTile c tile attrs).summary.getD defaultSummary).stats.count
      = tile.tileData.flatData.length -
          (tile.tileData.flatData.filter Val.isNan).length := by
    simp only [outTile_summary_eq, Option.getD_some, outSummary_stats, outStats_count]
  exact ⟨h.trans (count_filter_not_nan _), h⟩

/-- A swath tile whose data holds a positive infinity and the finite value 1. -/
def c3Tile : Tile :=
  ⟨TileData.swath [Val.fin 0, Val.fin 0] [Val.fin 0] [Val.pinf, Val.fin 1]
      TimeField.absent,
   some exSum⟩

theorem c3_eval : process "d" c3Tile exDs = Except.ok (outTile "d" c3Tile exAttrs) :=
  process_eq_ok (List.cons_ne_nil _ _) (List.cons_ne_nil _ _) (List.cons_ne_nil _ _) rfl
    (by simp [c3Tile, find_time_min_max, TileData.time]) rfl

/-- C3 is false as stated: for data `[+inf, 1]` the code reports
`count = 2` (it subtracts only NaN entries), while total count minus
non-finite count would be `2 - 1 = 1`. -/
theorem C3_count_cex :
    process "d" c3Tile exDs = Except.ok (outTile "d" c3Tile exAttrs) ∧
    ((outTile "d" c3Tile exAttrs).summary.getD defaultSummary).stats.count = 2 ∧
    (c3Tile.tileData.flatData.filter fun v => !v.isFin).length = 1 ∧
    ((outTile "d" c3Tile exAttrs).summary.getD defaultSummary).stats.count ≠
      c3Tile.tileData.flatData.length -
        (c3Tile.tileData.flatData.filter fun v => !v.isFin).length := by
  have hc : ((outTile "d" c3Tile exAttrs).summary.getD defaultSummary).stats.count = 2 := by
    simp only [outTile_summary_eq, Option.getD_some, outSummary_stats, outStats_count]
    rfl
  refine ⟨c3_eval, hc, rfl, ?_⟩
  rw [hc]
  decide

theorem C3_count_non_nan_witness :
    process "d" c3Tile exDs = Except.ok (outTile "d" c3Tile exAttrs) ∧
    ((outTile "d" c3Tile exAttrs).summary.getD defaultSummary).stats.count =
      (c3Tile.tileData.flatData.filter fun v => !v.isNan).length :=
  ⟨c3_eval, (C3_count_non_nan c3_eval).1⟩

/-- A dataset that maps `sst` but whose attributes carry no standard name. -/
def dsNoAttr : Dataset := ⟨[("sst", ⟨none⟩)]⟩

/-- C4: the standard-name lookup is NOT fully best-effort.  When the dataset
has no variable under the summary's `data_var_name`, the mapping indexing
`dataset.variables[...]` raises `KeyError` and `process` fails (first
conjunct) — the claim of silent completion holds only in the other half of
the claim: when the variable exists but lacks the `standard_name` attribute,
the run completes and the field is left as it was (second conjunct). -/
theorem C4_standard_name_lookup :
    process "d" w1Tile dsEmpty = Except.error ProcErr.keyError ∧
    (process "d" w1Tile dsNoAttr = Except.ok (outTile "d" w1Tile ⟨none⟩) ∧
     ((outTile "d" w1Tile ⟨none⟩).summary.getD defaultSummary).standard_name =
       exSum.standard_name) := by
  refine ⟨rfl, ?_, ?_⟩
  · exact process_eq_ok (List.cons_ne_nil _ _) (List.cons_ne_nil _ _)
      (List.cons_ne_nil _ _) rfl (by simp [w1Tile, find_time_min_max, TileData.time]) rfl
  · rfl

/-- A tile whose scalar time is exactly 0. -/
def c5Tile : Tile :=
  ⟨TileData.other [Val.fin 0] [Val.fin 0] [Val.fin 1] (TimeField.scalar 0), some exSum⟩

/-- C5 is false at the scalar time 0: `if tile_data.time:` is falsy for 0,
so the `NoTimeException` path is taken and `min_time`/`max_time` are left
unset instead of being set to 0. -/
theorem C5_time_zero_cex :
    c5Tile.tileData.time = TimeField.scalar 0 ∧
    process "d" c5Tile exDs = Except.ok (outTile "d" c5Tile exAttrs) ∧
    ((outTile "d" c5Tile exAttrs).summary.getD defaultSummary).stats.min_time = none ∧
    ((outTile "d" c5Tile exAttrs).summary.getD defaultSummary).stats.max_time = none := by
  refine ⟨rfl, ?_, rfl, rfl⟩
  exact process_eq_ok (List.cons_ne_nil _ _) (List.cons_ne_nil _ _) (List.cons_ne_nil _ _)
    rfl (by simp [c5Tile, find_time_min_max, TileData.time]) rfl

/-- C5 (amended): for every tile whose time field is a NONZERO scalar
integer, a successful run sets `stats.min_time` and `stats.max_time` both
to that scalar.  The scalar 0 is excluded: it is falsy and treated as an
absent time. -/
theorem C5_scalar_time {c : String} {ds : Dataset} {tile t' : Tile} {t : Int}
    (htime : tile.tileData.time = TimeField.scalar t) (ht : t ≠ 0)
    (hp : process c tile ds = Except.ok t') :
    (t'.summary.getD defaultSummary).stats.min_time = some t ∧
    (t'.summary.getD defaultSummary).stats.max_time = some t := by
  obtain ⟨-, -, -, -, -, attrs, -, ht'⟩ := process_ok_inv hp
  subst ht'
  have hfm : find_time_min_max tile.tileData.time = Except.ok (t, t) := by
    rw [htime]
    simp only [find_time_min_max, if_neg ht]
  obtain ⟨h1, h2⟩ := outStats_time_of_ok hfm
  constructor <;>
    simp only [outTile_summary_eq, Option.getD_some, outSummary_stats, h1, h2]

/-- A tile whose scalar time is the test's timestamp 1577577600. -/
def c5wTile : Tile :=
  ⟨TileData.other [Val.fin 0] [Val.fin 0] [Val.fin 1] (TimeField.scalar 1577577600),
   some exSum⟩

theorem C5_scalar_time_witness :
    process "d" c5wTile exDs = Except.ok (outTile "d" c5wTile exAttrs) ∧
    ((outTile "d" c5wTile exAttrs).summary.getD defaultSummary).stats.min_time =
      some 1577577600 ∧
    ((outTile "d" c5wTile exAttrs).summary.getD defaultSummary).stats.max_time =
      some 1577577600 := by
  have hp : process "d" c5wTile exDs = Except.ok (outTile "d" c5wTile exAttrs) :=
    process_eq_ok (List.cons_ne_nil _ _) (List.cons_ne_nil _ _) (List.cons_ne_nil _ _)
      rfl (by simp [c5wTile, find_time_min_max, TileData.time]) rfl
  obtain ⟨h1, h2⟩ := @C5_scalar_time "d" exDs c5wTile (outTile "d" c5wTile exAttrs)
    1577577600 rfl (by decide) hp
  exact ⟨hp, h1, h2⟩

/-- Projection of a `process` result onto the summary it produced; `none`
when the run raised. -/
def summaryOf : Except ProcErr Tile → Option TileSummary
  | .ok t => t.summary
  | .error _ => none

/-- A swath tile with no time value at all. -/
def c6Tile : Tile :=
  ⟨TileData.swath [Val.fin 0] [Val.fin 0] [Val.fin 1] TimeField.absent, some exSum⟩

/-- C6 is false as stated: a tile whose time field is absent can still
raise.  With a dataset that lacks the summary's `data_var_name`, the
standard-name indexing raises `KeyError` even though time absence itself
was tolerated. -/
theorem C6_missing_time_cex :
    c6Tile.tileData.time = TimeField.absent ∧
    process "d" c6Tile dsEmpty = Except.error ProcErr.keyError := ⟨rfl, rfl⟩

/-- C6 (amended): for every tile on the `NoTimeException` path (time absent
or rejected), provided the structural guards pass, the dataset maps the
summary's `data_var_name`, and the prior summary carries no time range, the
run completes without error, produces a summary (with `dataset_name`
populated), and leaves `min_time`/`max_time` unset. -/
theorem C6_missing_time {c : String} {tile : Tile} {ds : Dataset} {attrs : VarAttrs}
    (hnt : find_time_min_max tile.tileData.time = Except.error TimeErr.noTime)
    (hlat : tile.tileData.latitude ≠ []) (hlon : tile.tileData.longitude ≠ [])
    (hdat : tile.tileData.flatData ≠ []) (hshape : tile.tileData.shapeOk = true)
    (hlook : ds.vars.lookup (tile.summary.getD defaultSummary).data_var_name = some attrs)
    (hmt : (tile.summary.getD defaultSummary).stats.min_time = none)
    (hMt : (tile.summary.getD defaultSummary).stats.max_time = none) :
    (summaryOf (process c tile ds)).isSome = true ∧
    ((summaryOf (process c tile ds)).getD defaultSummary).stats.min_time = none ∧
    ((summaryOf (process c tile ds)).getD defaultSummary).stats.max_time = none ∧
    ((summaryOf (process c tile ds)).getD defaultSummary).dataset_name = c := by
  have hp := process_eq_ok (c := c) hlat hlon hdat hshape
    (by rw [hnt]; simp) hlook
  rw [hp]
  obtain ⟨m1, m2⟩ := @outStats_time_of_noTime tile hnt
  refine ⟨rfl, ?_, ?_, rfl⟩
  · show ((some (outSummary c tile attrs)).getD defaultSummary).stats.min_time = none
    simp only [Option.getD_some, outSummary_stats]
    rw [m1, hmt]
  · show ((some (outSummary c tile attrs)).getD defaultSummary).stats.max_time = none
    simp only [Option.getD_some, outSummary_stats]
    rw [m2, hMt]

theorem C6_missing_time_witness :
    (summaryOf (process "d" c6Tile exDs)).isSome = true ∧
    ((summaryOf (process "d" c6Tile exDs)).getD defaultSummary).stats.min_time = none ∧
    ((summaryOf (process "d" c6Tile exDs)).getD defaultSummary).stats.max_time = none ∧
    ((summaryOf (process "d" c6Tile exDs)).getD defaultSummary).dataset_name = "d" :=
  @C6_missing_time "d" c6Tile exDs exAttrs rfl (List.cons_ne_nil _ _) (List.cons_ne_nil _ _)
    (List.cons_ne_nil _ _) rfl rfl rfl rfl

theorem filter_not_nan_length_no_inf : ∀ dl : List Val,
    (∀ v ∈ dl, v.isPinf = false ∧ v.isNinf = false) →
    (dl.filter fun v => !v.isNan).length = (finList dl).length := by
  intro dl
  induction dl with
  | nil => intro _; rfl
  | cons v rest ih =>
    intro h
    have hv := h v (by simp)
    have hr := fun u hu => h u (List.mem_cons_of_mem _ hu)
    cases v with
    | fin x =>
      rw [List.filter_cons_of_pos (by rfl),
        show finList (Val.fin x :: rest) = x :: finList rest from rfl,
        List.length_cons, List.length_cons, ih hr]
    | nan =>
      rw [List.filter_cons_of_neg (by simp [Val.isNan]),
        show finList (Val.nan :: rest) = finList rest from rfl, ih hr]
    | pinf => simp [Val.isPinf] at hv
    | ninf => simp [Val.isNinf] at hv

/-- `numpy.nanmean` over data free of infinities: the plain arithmetic mean
of the finite entries. -/
theorem nanmeanL_no_inf {dl : List Val}
    (hnoinf : ∀ v ∈ dl, v.isPinf = false ∧ v.isNinf = false)
    (hfin : finList dl ≠ []) :
    nanmeanL dl = Val.fin ((finList dl).sum / ((finList dl).length : ℝ)) := by
  have hlen := filter_not_nan_length_no_inf dl hnoinf
  have hflen : (finList dl).length ≠ 0 := fun h => hfin (List.length_eq_zero.mp h)
  have hempty : (dl.filter fun v => !v.isNan).isEmpty = false := by
    rcases hne : dl.filter fun v => !v.isNan with _ | ⟨a, b⟩
    · rw [hne] at hlen
      exact absurd hlen.symm hflen
    · rw [hne]
      rfl
  have hpinf : (dl.filter fun v => !v.isNan).any Val.isPinf = false := by
    rw [List.any_eq_false]
    intro v hv
    simp [(hnoinf v (List.mem_of_mem_filter hv)).1]
  have hninf : (dl.filter fun v => !v.isNan).any Val.isNinf = false := by
    rw [List.any_eq_false]
    intro v hv
    simp [(hnoinf v (List.mem_of_mem_filter hv)).2]
  unfold nanmeanL
  simp only [hempty, hpinf, hninf, Bool.false_and, Bool.false_eq_true, if_false, hlen]

/-- A fallback-layout tile whose data holds a positive infinity. -/
def c8Tile : Tile :=
  ⟨TileData.other [Val.fin 0] [Val.fin 0] [Val.pinf, Val.fin 1] TimeField.absent,
   some exSum⟩

/-- C8 is false as stated: for the unrecognized layout the code uses
`numpy.nanmean`, which keeps infinities; with data `[+inf, 1]` the mean is
`+inf`, not the arithmetic mean (1) of the finite entries. -/
theorem C8_fallback_cex :
    process "d" c8Tile exDs = Except.ok (outTile "d" c8Tile exAttrs) ∧
    ((outTile "d" c8Tile exAttrs).summary.getD defaultSummary).stats.mean = Val.pinf ∧
    Val.fin (((finList c8Tile.tileData.flatData).sum) /
      ((finList c8Tile.tileData.flatData).length : ℝ)) = Val.fin 1 ∧
    ((outTile "d" c8Tile exAttrs).summary.getD defaultSummary).stats.mean ≠
      Val.fin (((finList c8Tile.tileData.flatData).sum) /
        ((finList c8Tile.tileData.flatData).length : ℝ)) := by
  have hm : ((outTile "d" c8Tile exAttrs).summary.getD defaultSummary).stats.mean
      = Val.pinf := by
    simp only [outTile_summary_eq, Option.getD_some, outSummary_stats, outStats_mean]
    rfl
  have hone : Val.fin (((finList c8Tile.tileData.flatData).sum) /
      ((finList c8Tile.tileData.flatData).length : ℝ)) = Val.fin 1 := by
    norm_num [c8Tile, TileData.flatData, finList, Val.toFin, List.filterMap_cons]
  refine ⟨?_, hm, hone, ?_⟩
  · exact process_eq_ok (List.cons_ne_nil _ _) (List.cons_ne_nil _ _)
      (List.cons_ne_nil _ _) rfl (by simp [c8Tile, find_time_min_max, TileData.time]) rfl
  · rw [hm, hone]
    exact fun h => Val.noConfusion h

/-- C8 (amended): for every unrecognized-layout tile whose data contains no
infinities and has at least one finite entry, a successful run sets
`stats.mean` to the plain unweighted arithmetic mean of the valid entries
(no latitude weighting).  The no-infinity proviso is forced: `nanmean`
propagates infinities. -/
theorem C8_fallback_mean {c : String} {ds : Dataset} {tile t' : Tile}
    {la lo dl : List Val} {tf : TimeField}
    (htd : tile.tileData = TileData.other la lo dl tf)
    (hnoinf : ∀ v ∈ dl, v.isPinf = false ∧ v.isNinf = false)
    (hfin : finList dl ≠ [])
    (hp : process c tile ds = Except.ok t') :
    (t'.summary.getD defaultSummary).stats.mean =
      Val.fin ((finList dl).sum / ((finList dl).length : ℝ)) := by
  obtain ⟨-, -, -, -, -, attrs, -, ht'⟩ := process_ok_inv hp
  subst ht'
  have hmean : ((outTile c tile attrs).summary.getD defaultSummary).stats.mean
      = meanOf tile.tileData := by
    simp only [outTile_summary_eq, Option.getD_some, outSummary_stats, outStats_mean]
  rw [hmean, htd]
  exact nanmeanL_no_inf hnoinf hfin

/-- A fallback-layout tile with data `[2, 4, NaN]`. -/
def c8wTile : Tile :=
  ⟨TileData.other [Val.fin 0] [Val.fin 0] [Val.fin 2, Val.fin 4, Val.nan]
      TimeField.absent,
   some exSum⟩

theorem C8_fallback_mean_witness :
    process "d" c8wTile exDs = Except.ok (outTile "d" c8wTile exAttrs) ∧
    ((outTile "d" c8wTile exAttrs).summary.getD defaultSummary).stats.mean =
      Val.fin 3 := by
  have hp : process "d" c8wTile exDs = Except.ok (outTile "d" c8wTile exAttrs) :=
    process_eq_ok (List.cons_ne_nil _ _) (List.cons_ne_nil _ _) (List.cons_ne_nil _ _)
      rfl (by simp [c8wTile, find_time_min_max, TileData.time]) rfl
  have h := @C8_fallback_mean "d" exDs c8wTile (outTile "d" c8wTile exAttrs)
      [Val.fin 0] [Val.fin 0] [Val.fin 2, Val.fin 4, Val.nan] TimeField.absent rfl
      (by
        intro v hv
        simp only [List.mem_cons, List.not_mem_nil, or_false] at hv
        rcases hv with rfl | rfl | rfl <;> exact ⟨rfl, rfl⟩)
      (by simp [finList, Val.toFin, List.filterMap_cons])
      hp
  refine ⟨hp, ?_⟩
  rw [h]
  norm_num [finList, Val.toFin, List.filterMap_cons]

attribute [ext] BBox Stats TileSummary Tile

theorem outStats_time_of_error {tile : Tile} {e : TimeErr}
    (h : find_time_min_max tile.tileData.time = Except.error e) :
    (outStats tile).min_time = (tile.summary.getD defaultSummary).stats.min_time ∧
    (outStats tile).max_time = (tile.summary.getD defaultSummary).stats.max_time := by
  unfold outStats
  dsimp only
  rw [h]
  exact ⟨rfl, rfl⟩

theorem outStats_idem (c : String) (tile : Tile) (attrs : VarAttrs) :
    outStats (outTile c tile attrs) = outStats tile := by
  refine Stats.ext ?_ ?_ ?_ ?_ ?_ ?_
  · rw [outStats_min, outStats_min]
    rfl
  · rw [outStats_max, outStats_max]
    rfl
  · rw [outStats_mean, outStats_mean]
    rfl
  · rw [outStats_count, outStats_count]
    rfl
  · cases h : find_time_min_max tile.tileData.time with
    | ok p =>
      obtain ⟨a, b⟩ := p
      rw [(@outStats_time_of_ok (outTile c tile attrs) a b h).1,
        (@outStats_time_of_ok tile a b h).1]
    | error e =>
      rw [(@outStats_time_of_error (outTile c tile attrs) e h).1]
      rfl
  · cases h : find_time_min_max tile.tileData.time with
    | ok p =>
      obtain ⟨a, b⟩ := p
      rw [(@outStats_time_of_ok (outTile c tile attrs) a b h).2,
        (@outStats_time_of_ok tile a b h).2]
    | error e =>
      rw [(@outStats_time_of_error (outTile c tile attrs) e h).2]
      rfl

theorem outSummary_standard_name (c : String) (tile : Tile) (attrs : VarAttrs) :
    (outSummary c tile attrs).standard_name =
      (match attrs.standard_name with
       | some s => if s = "" then (tile.summary.getD defaultSummary).standard_name else s
       | none => (tile.summary.getD defaultSummary).standard_name) := rfl

theorem outSummary_idem (c : String) (tile : Tile) (attrs : VarAttrs) :
    outSummary c (outTile c tile attrs) attrs = outSummary c tile attrs := by
  refine TileSummary.ext rfl rfl rfl rfl ?_ rfl (outStats_idem c tile attrs)
  rw [outSummary_standard_name, outSummary_standard_name]
  cases hsn : attrs.standard_name with
  | none =>
    dsimp only
    rw [show ((outTile c tile attrs).summary.getD defaultSummary).standard_name =
        (outSummary c tile attrs).standard_name from rfl,
      outSummary_standard_name]
    simp only [hsn]
  | some s =>
    dsimp only
    by_cases hs : s = ""
    · rw [if_pos hs, if_pos hs,
        show ((outTile c tile attrs).summary.getD defaultSummary).standard_name =
          (outSummary c tile attrs).standard_name from rfl,
        outSummary_standard_name]
      simp only [hsn]
      rw [if_pos hs]
    · rw [if_neg hs, if_neg hs]

/-- C9: `process` is idempotent — running it again on the tile produced by
a successful run, with the same dataset and configured name, returns the
same tile unchanged. -/
theorem C9_idempotent {c : String} {ds : Dataset} {tile t' : Tile}
    (hp : process c tile ds = Except.ok t') :
    process c t' ds = Except.ok t' := by
  obtain ⟨hlat, hlon, hdat, hshape, htime, attrs, hlook, ht'⟩ := process_ok_inv hp
  subst ht'
  have hrun := @process_eq_ok c (outTile c tile attrs) ds attrs
    hlat hlon hdat hshape htime hlook
  rw [hrun]
  congr 1
  refine Tile.ext rfl ?_
  show some (outSummary c (outTile c tile attrs) attrs) = some (outSummary c tile attrs)
  rw [outSummary_idem]

/-- A simple fallback-layout tile with a nonzero scalar time. -/
def c9wTile : Tile :=
  ⟨TileData.other [Val.fin 0] [Val.fin 0] [Val.fin 1] (TimeField.scalar 3), some exSum⟩

theorem c9w_eval : process "d" c9wTile exDs = Except.ok (outTile "d" c9wTile exAttrs) :=
  process_eq_ok (List.cons_ne_nil _ _) (List.cons_ne_nil _ _) (List.cons_ne_nil _ _)
    rfl (by simp [c9wTile, find_time_min_max, TileData.time]) rfl

theorem C9_idempotent_witness :
    process "d" c9wTile exDs = Except.ok (outTile "d" c9wTile exAttrs) ∧
    process "d" (outTile "d" c9wTile exAttrs) exDs =
      Except.ok (outTile "d" c9wTile exAttrs) :=
  ⟨c9w_eval, C9_idempotent c9w_eval⟩

/-- C10: for every tile that already carries a summary, a successful run
keeps every summary field it does not recompute — `granule`, `tile_id` and
`data_var_name` are carried over unchanged (the new summary is built by
mutating the existing one), and the tile's data is untouched. -/
theorem C10_frame {c : String} {ds : Dataset} {tile t' : Tile} {s0 : TileSummary}
    (hsum : tile.summary = some s0)
    (hp : process c tile ds = Except.ok t') :
    t'.summary.isSome = true ∧
    (t'.summary.getD defaultSummary).granule = s0.granule ∧
    (t'.summary.getD defaultSummary).tile_id = s0.tile_id ∧
    (t'.summary.getD defaultSummary).data_var_name = s0.data_var_name ∧
    t'.tileData = tile.tileData := by
  obtain ⟨-, -, -, -, -, attrs, -, ht'⟩ := process_ok_inv hp
  subst ht'
  have h0 : tile.summary.getD defaultSummary = s0 := by
    rw [hsum]
    rfl
  refine ⟨rfl, ?_, ?_, ?_, rfl⟩
  · show (tile.summary.getD defaultSummary).granule = s0.granule
    rw [h0]
  · show (tile.summary.getD defaultSummary).tile_id = s0.tile_id
    rw [h0]
  · show (tile.summary.getD defaultSummary).data_var_name = s0.data_var_name
    rw [h0]

theorem C10_frame_witness :
    (outTile "d" c9wTile exAttrs).summary.isSome = true ∧
    ((outTile "d" c9wTile exAttrs).summary.getD defaultSummary).granule =
      exSum.granule ∧
    ((outTile "d" c9wTile exAttrs).summary.getD defaultSummary).tile_id =
      exSum.tile_id ∧
    ((outTile "d" c9wTile exAttrs).summary.getD defaultSummary).data_var_name =
      exSum.data_var_name ∧
    (outTile "d" c9wTile exAttrs).tileData = c9wTile.tileData :=
  @C10_frame "d" exDs c9wTile (outTile "d" c9wTile exAttrs) exSum rfl c9w_eval

/-! Support for the min ≤ mean ≤ max invariant. -/

theorem filter_not_nan_no_inf : ∀ l : List Val,
    (∀ v ∈ l, v.isPinf = false ∧ v.isNinf = false) →
    l.filter (fun v => !v.isNan) = (finList l).map Val.fin := by
  intro l
  induction l with
  | nil => intro _; rfl
  | cons v rest ih =>
    intro h
    have hv := h v (by simp)
    have hr := fun u hu => h u (List.mem_cons_of_mem _ hu)
    cases v with
    | fin x =>
      rw [List.filter_cons_of_pos (by rfl),
        show finList (Val.fin x :: rest) = x :: finList rest from rfl,
        List.map_cons, ih hr]
    | nan =>
      rw [List.filter_cons_of_neg (by simp [Val.isNan]),
        show finList (Val.nan :: rest) = finList rest from rfl, ih hr]
    | pinf => simp [Val.isPinf] at hv
    | ninf => simp [Val.isNinf] at hv

theorem foldl_min_le_init (a : ℝ) (l : List ℝ) : l.foldl min a ≤ a := by
  induction l generalizing a with
  | nil => exact le_refl a
  | cons z zs ih => exact le_trans (ih (min a z)) (min_le_left a z)

theorem foldl_min_le_mem (a : ℝ) (l : List ℝ) : ∀ x ∈ l, l.foldl min a ≤ x := by
  induction l generalizing a with
  | nil => intro x hx; simp at hx
  | cons z zs ih =>
    intro x hx
    rcases List.mem_cons.mp hx with rfl | hx
    · exact le_trans (foldl_min_le_init (min a x) zs) (min_le_right a x)
    · exact ih (min a z) x hx

theorem foldl_max_ge_init (a : ℝ) (l : List ℝ) : a ≤ l.foldl max a := by
  induction l generalizing a with
  | nil => exact le_refl a
  | cons z zs ih => exact le_trans (le_max_left a z) (ih (max a z))

theorem foldl_max_ge_mem (a : ℝ) (l : List ℝ) : ∀ x ∈ l, x ≤ l.foldl max a := by
  induction l generalizing a with
  | nil => intro x hx; simp at hx
  | cons z zs ih =>
    intro x hx
    rcases List.mem_cons.mp hx with rfl | hx
    · exact le_trans (le_max_right a x) (foldl_max_ge_init (max a x) zs)
    · exact ih (max a z) x hx

theorem foldl_vmin_fin (y : ℝ) (ys : List ℝ) :
    (ys.map Val.fin).foldl vmin (Val.fin y) = Val.fin (ys.foldl min y) := by
  induction ys generalizing y with
  | nil => rfl
  | cons z zs ih => exact ih (min y z)

theorem foldl_vmax_fin (y : ℝ) (ys : List ℝ) :
    (ys.map Val.fin).foldl vmax (Val.fin y) = Val.fin (ys.foldl max y) := by
  induction ys generalizing y with
  | nil => rfl
  | cons z zs ih => exact ih (max y z)

/-- `nanmin` of an array free of infinities with at least one finite entry:
a finite value below every finite entry. -/
theorem nanminCore_no_inf {l : List Val}
    (hnoinf : ∀ v ∈ l, v.isPinf = false ∧ v.isNinf = false)
    (hfin : finList l ≠ []) :
    ∃ m, nanminCore l = Val.fin m ∧ ∀ x ∈ finList l, m ≤ x := by
  unfold nanminCore
  rw [filter_not_nan_no_inf l hnoinf]
  rcases hl : finList l with _ | ⟨y, ys⟩
  · exact absurd hl hfin
  · rw [List.map_cons]
    dsimp only
    rw [foldl_vmin_fin]
    refine ⟨ys.foldl min y, rfl, fun x hx => ?_⟩
    rcases List.mem_cons.mp hx with rfl | hx
    · exact foldl_min_le_init x ys
    · exact foldl_min_le_mem y ys x hx

theorem nanmaxCore_no_inf {l : List Val}
    (hnoinf : ∀ v ∈ l, v.isPinf = false ∧ v.isNinf = false)
    (hfin : finList l ≠ []) :
    ∃ m, nanmaxCore l = Val.fin m ∧ ∀ x ∈ finList l, x ≤ m := by
  unfold nanmaxCore
  rw [filter_not_nan_no_inf l hnoinf]
  rcases hl : finList l with _ | ⟨y, ys⟩
  · exact absurd hl hfin
  · rw [List.map_cons]
    dsimp only
    rw [foldl_vmax_fin]
    refine ⟨ys.foldl max y, rfl, fun x hx => ?_⟩
    rcases List.mem_cons.mp hx with rfl | hx
    · exact foldl_max_ge_init x ys
    · exact foldl_max_ge_mem y ys x hx

theorem mem_finList {l : List Val} {x : ℝ} (h : Val.fin x ∈ l) : x ∈ finList l :=
  List.mem_filterMap.mpr ⟨Val.fin x, h, rfl⟩

theorem finList_mem {l : List Val} {x : ℝ} (h : x ∈ finList l) : Val.fin x ∈ l := by
  obtain ⟨v, hv, htf⟩ := List.mem_filterMap.mp h
  cases v <;> simp [Val.toFin] at htf
  exact htf ▸ hv

theorem weighted_sum_le (hi : ℝ) : ∀ ps : List (ℝ × ℝ),
    (∀ p ∈ ps, 0 ≤ Real.cos (radians p.2)) → (∀ p ∈ ps, p.1 ≤ hi) →
    (ps.map fun p => p.1 * Real.cos (radians p.2)).sum ≤
      hi * (ps.map fun p => Real.cos (radians p.2)).sum := by
  intro ps
  induction ps with
  | nil =>
    intro _ _
    simp
  | cons p rest ih =>
    intro hw hhi
    simp only [List.map_cons, List.sum_cons, mul_add]
    exact add_le_add
      (mul_le_mul_of_nonneg_right (hhi p (by simp)) (hw p (by simp)))
      (ih (fun q hq => hw q (List.mem_cons_of_mem _ hq))
        (fun q hq => hhi q (List.mem_cons_of_mem _ hq)))

theorem le_weighted_sum (lo : ℝ) : ∀ ps : List (ℝ × ℝ),
    (∀ p ∈ ps, 0 ≤ Real.cos (radians p.2)) → (∀ p ∈ ps, lo ≤ p.1) →
    lo * (ps.map fun p => Real.cos (radians p.2)).sum ≤
      (ps.map fun p => p.1 * Real.cos (radians p.2)).sum := by
  intro ps
  induction ps with
  | nil =>
    intro _ _
    simp
  | cons p rest ih =>
    intro hw hlo
    simp only [List.map_cons, List.sum_cons, mul_add]
    exact add_le_add
      (mul_le_mul_of_nonneg_right (hlo p (by simp)) (hw p (by simp)))
      (ih (fun q hq => hw q (List.mem_cons_of_mem _ hq))
        (fun q hq => hlo q (List.mem_cons_of_mem _ hq)))

/-- `numpy.ma.average` with positive weights over a nonempty pair list is a
finite value between any lower and upper bound of the data entries. -/
theorem wavg_bounds {ps : List (ℝ × ℝ)} {lo hi : ℝ}
    (hne : ps ≠ [])
    (hw : ∀ p ∈ ps, 0 < Real.cos (radians p.2))
    (hlo : ∀ p ∈ ps, lo ≤ p.1) (hhi : ∀ p ∈ ps, p.1 ≤ hi) :
    ∃ m, wavg ps = Val.fin m ∧ lo ≤ m ∧ m ≤ hi := by
  have hden : 0 < (ps.map fun p => Real.cos (radians p.2)).sum := by
    apply List.sum_pos
    · intro x hx
      obtain ⟨p, hp, rfl⟩ := List.mem_map.mp hx
      exact hw p hp
    · simpa using hne
  refine ⟨(ps.map fun p => p.1 * Real.cos (radians p.2)).sum /
      (ps.map fun p => Real.cos (radians p.2)).sum, wavg_of_den_ne (ne_of_gt hden), ?_, ?_⟩
  · rw [le_div_iff₀ hden]
    have := le_weighted_sum lo ps (fun p hp => le_of_lt (hw p hp)) hlo
    linarith
  · rw [div_le_iff₀ hden]
    have := weighted_sum_le hi ps (fun p hp => le_of_lt (hw p hp)) hhi
    linarith

theorem validPairs_mem {data lats : List Val} {p : ℝ × ℝ}
    (hp : p ∈ validPairs data lats) :
    Val.fin p.1 ∈ data ∧ Val.fin p.2 ∈ lats := by
  unfold validPairs at hp
  obtain ⟨q, hq, hmap⟩ := List.mem_filterMap.mp hp
  obtain ⟨a, b⟩ := q
  cases a <;> cases b <;> simp at hmap
  obtain ⟨h1, h2⟩ := Prod.mk.injEq .. ▸ hmap
  cases hmap
  exact ⟨(List.of_mem_zip hq).1, (List.of_mem_zip hq).2⟩

theorem isFin_exists {v : Val} (h : v.isFin = true) : ∃ x, v = Val.fin x := by
  cases v <;> simp [Val.isFin] at h ⊢

theorem validPairs_ne_nil : ∀ (data lats : List Val),
    data.length = lats.length →
    (∀ v ∈ lats, v.isFin = true) →
    ∀ x : ℝ, Val.fin x ∈ data →
    validPairs data lats ≠ [] := by
  intro data
  induction data with
  | nil =>
    intro lats _ _ x hx
    simp at hx
  | cons d rest ih =>
    intro lats hlen hlf x hx
    cases lats with
    | nil => simp at hlen
    | cons la rest2 =>
      obtain ⟨y, rfl⟩ := isFin_exists (hlf la (by simp))
      rcases List.mem_cons.mp hx with rfl | hx
      · rw [validPairs_cons_fin]
        exact List.cons_ne_nil _ _
      · have ihne := ih rest2 (by simpa using hlen)
          (fun v hv => hlf v (List.mem_cons_of_mem _ hv)) x hx
        cases d with
        | fin z =>
          rw [validPairs_cons_fin]
          exact List.cons_ne_nil _ _
        | nan =>
          intro hnil
          exact ihne (by simpa [validPairs, List.filterMap_cons] using hnil)
        | pinf =>
          intro hnil
          exact ihne (by simpa [validPairs, List.filterMap_cons] using hnil)
        | ninf =>
          intro hnil
          exact ihne (by simpa [validPairs, List.filterMap_cons] using hnil)

theorem cos_radians_pos {x : ℝ} (h1 : -90 < x) (h2 : x < 90) :
    0 < Real.cos (radians x) := by
  have hpi : (0 : ℝ) < Real.pi / 180 := by positivity
  apply Real.cos_pos_of_mem_Ioo
  constructor
  · have := mul_lt_mul_of_pos_right h1 hpi
    calc -(Real.pi / 2) = -90 * (Real.pi / 180) := by ring
      _ < x * (Real.pi / 180) := this
  · have := mul_lt_mul_of_pos_right h2 hpi
    calc radians x = x * (Real.pi / 180) := rfl
      _ < 90 * (Real.pi / 180) := this
      _ = Real.pi / 2 := by ring

theorem sum_le_length_mul (hi : ℝ) : ∀ xs : List ℝ,
    (∀ x ∈ xs, x ≤ hi) → xs.sum ≤ (xs.length : ℝ) * hi := by
  intro xs
  induction xs with
  | nil =>
    intro _
    simp
  | cons x rest ih =>
    intro h
    have h1 := h x (by simp)
    have h2 := ih fun y hy => h y (List.mem_cons_of_mem _ hy)
    simp only [List.sum_cons, List.length_cons]
    push_cast
    linarith

theorem length_mul_le_sum (lo : ℝ) : ∀ xs : List ℝ,
    (∀ x ∈ xs, lo ≤ x) → (xs.length : ℝ) * lo ≤ xs.sum := by
  intro xs
  induction xs with
  | nil =>
    intro _
    simp
  | cons x rest ih =>
    intro h
    have h1 := h x (by simp)
    have h2 := ih fun y hy => h y (List.mem_cons_of_mem _ hy)
    simp only [List.sum_cons, List.length_cons]
    push_cast
    linarith

theorem sum_div_length_bounds {xs : List ℝ} (hne : xs ≠ []) {lo hi : ℝ}
    (hlo : ∀ x ∈ xs, lo ≤ x) (hhi : ∀ x ∈ xs, x ≤ hi) :
    lo ≤ xs.sum / (xs.length : ℝ) ∧ xs.sum / (xs.length : ℝ) ≤ hi := by
  have hlen : (0 : ℝ) < (xs.length : ℝ) := by
    exact_mod_cast List.length_pos.mpr hne
  constructor
  · rw [le_div_iff₀ hlen]
    have := length_mul_le_sum lo xs hlo
    linarith
  · rw [div_le_iff₀ hlen]
    have := sum_le_length_mul hi xs hhi
    linarith

theorem mem_flatten_replicate {n : Nat} {la : List Val} {v : Val}
    (h : v ∈ (la.map fun u => List.replicate n u).flatten) : v ∈ la := by
  obtain ⟨lst, hlst, hv⟩ := List.mem_flatten.mp h
  obtain ⟨u, hu, rfl⟩ := List.mem_map.mp hlst
  rw [List.eq_of_mem_replicate hv]
  exact hu

theorem length_flatten_replicate (n : Nat) : ∀ la : List Val,
    ((la.map fun u => List.replicate n u).flatten).length = la.length * n := by
  intro la
  induction la with
  | nil => simp
  | cons v rest ih =>
    simp only [List.map_cons, List.flatten_cons, List.length_append,
      List.length_replicate, List.length_cons, ih]
    ring

theorem finList_ne_nil_exists {l : List Val} (h : finList l ≠ []) :
    ∃ x : ℝ, Val.fin x ∈ l := by
  rcases hl : finList l with _ | ⟨y, ys⟩
  · exact absurd hl h
  · exact ⟨y, finList_mem (by rw [hl]; simp)⟩

/-- C7 (amended): for every tile whose data contains no infinities and at
least one valid (finite) sample, and whose latitudes are all finite and
strictly between -90 and 90 degrees, a successful run satisfies
`stats.min ≤ stats.mean ≤ stats.max`.  The latitude proviso is forced: a
latitude beyond 90 degrees gives a negative cosine weight and the weighted
mean can leave the `[min, max]` interval. -/
theorem C7_min_mean_max {c : String} {ds : Dataset} {tile t' : Tile}
    (hp : process c tile ds = Except.ok t')
    (hnoinf : ∀ v ∈ tile.tileData.flatData, v.isPinf = false ∧ v.isNinf = false)
    (hfin : finList tile.tileData.flatData ≠ [])
    (hlats : ∀ v ∈ tile.tileData.latitude, ∃ x : ℝ, v = Val.fin x ∧ -90 < x ∧ x < 90) :
    Val.le (t'.summary.getD defaultSummary).stats.min
      (t'.summary.getD defaultSummary).stats.mean ∧
    Val.le (t'.summary.getD defaultSummary).stats.mean
      (t'.summary.getD defaultSummary).stats.max := by
  obtain ⟨-, -, -, hshape, -, attrs, -, ht'⟩ := process_ok_inv hp
  subst ht'
  have hsmin : ((outTile c tile attrs).summary.getD defaultSummary).stats.min
      = nanminCore tile.tileData.flatData := by
    simp only [outTile_summary_eq, Option.getD_some, outSummary_stats, outStats_min]
  have hsmax : ((outTile c tile attrs).summary.getD defaultSummary).stats.max
      = nanmaxCore tile.tileData.flatData := by
    simp only [outTile_summary_eq, Option.getD_some, outSummary_stats, outStats_max]
  have hsmean : ((outTile c tile attrs).summary.getD defaultSummary).stats.mean
      = meanOf tile.tileData := by
    simp only [outTile_summary_eq, Option.getD_some, outSummary_stats, outStats_mean]
  obtain ⟨m, hm, hmle⟩ := nanminCore_no_inf hnoinf hfin
  obtain ⟨M, hM, hMge⟩ := nanmaxCore_no_inf hnoinf hfin
  rw [hsmin, hsmax, hsmean, hm, hM]
  cases htd : tile.tileData with
  | swath la lo d tf =>
    rw [htd] at hnoinf hfin hlats hshape hmle hMge
    simp only [TileData.flatData, TileData.latitude,
      TileData.shapeOk] at hnoinf hfin hlats hshape hmle hMge
    have hlen : d.length = la.length := by simpa using hshape
    have hlf : ∀ v ∈ la, v.isFin = true := by
      intro v hv
      obtain ⟨x, rfl, -, -⟩ := hlats v hv
      rfl
    obtain ⟨x, hx⟩ := finList_ne_nil_exists hfin
    have hne : validPairs d la ≠ [] := validPairs_ne_nil d la hlen hlf x hx
    have hw : ∀ p ∈ validPairs d la, 0 < Real.cos (radians p.2) := by
      intro p hpm
      obtain ⟨-, h2⟩ := validPairs_mem hpm
      obtain ⟨y, hy, hy1, hy2⟩ := hlats _ h2
      have : p.2 = y := by
        cases hy
        rfl
      rw [this]
      exact cos_radians_pos hy1 hy2
    have hlo : ∀ p ∈ validPairs d la, m ≤ p.1 := by
      intro p hpm
      exact hmle p.1 (mem_finList (validPairs_mem hpm).1)
    have hhi : ∀ p ∈ validPairs d la, p.1 ≤ M := by
      intro p hpm
      exact hMge p.1 (mem_finList (validPairs_mem hpm).1)
    obtain ⟨mu, hmu, h1, h2⟩ := wavg_bounds hne hw hlo hhi
    have : meanOf (TileData.swath la lo d tf) = wavg (validPairs d la) := rfl
    rw [this, hmu]
    exact ⟨h1, h2⟩
  | grid la lo d tf =>
    rw [htd] at hnoinf hfin hlats hshape hmle hMge
    simp only [TileData.flatData, TileData.latitude,
      TileData.shapeOk] at hnoinf hfin hlats hshape hmle hMge
    have hlen : d.flatten.length =
        ((la.map fun u => List.replicate lo.length u).flatten).length := by
      rw [length_flatten_replicate]
      simpa using hshape
    have hlats2 : ∀ v ∈ (la.map fun u => List.replicate lo.length u).flatten,
        ∃ x : ℝ, v = Val.fin x ∧ -90 < x ∧ x < 90 :=
      fun v hv => hlats v (mem_flatten_replicate hv)
    have hlf : ∀ v ∈ (la.map fun u => List.replicate lo.length u).flatten,
        v.isFin = true := by
      intro v hv
      obtain ⟨x, rfl, -, -⟩ := hlats2 v hv
      rfl
    obtain ⟨x, hx⟩ := finList_ne_nil_exists hfin
    have hne := validPairs_ne_nil d.flatten _ hlen hlf x hx
    have hw : ∀ p ∈ validPairs d.flatten
        ((la.map fun u => List.replicate lo.length u).flatten),
        0 < Real.cos (radians p.2) := by
      intro p hpm
      obtain ⟨-, h2⟩ := validPairs_mem hpm
      obtain ⟨y, hy, hy1, hy2⟩ := hlats2 _ h2
      have : p.2 = y := by
        cases hy
        rfl
      rw [this]
      exact cos_radians_pos hy1 hy2
    have hlo : ∀ p ∈ validPairs d.flatten
        ((la.map fun u => List.replicate lo.length u).flatten), m ≤ p.1 := by
      intro p hpm
      exact hmle p.1 (mem_finList (validPairs_mem hpm).1)
    have hhi : ∀ p ∈ validPairs d.flatten
        ((la.map fun u => List.replicate lo.length u).flatten), p.1 ≤ M := by
      intro p hpm
      exact hMge p.1 (mem_finList (validPairs_mem hpm).1)
    obtain ⟨mu, hmu, h1, h2⟩ := wavg_bounds hne hw hlo hhi
    have : meanOf (TileData.grid la lo d tf) = wavg (validPairs d.flatten
        ((la.map fun u => List.replicate lo.length u).flatten)) := rfl
    rw [this, hmu]
    exact ⟨h1, h2⟩
  | other la lo d tf =>
    rw [htd] at hnoinf hfin hmle hMge
    simp only [TileData.flatData] at hnoinf hfin hmle hMge
    have : meanOf (TileData.other la lo d tf) = nanmeanL d := rfl
    rw [this, nanmeanL_no_inf hnoinf hfin]
    obtain ⟨hb1, hb2⟩ := sum_div_length_bounds hfin hmle hMge
    exact ⟨hb1, hb2⟩

/-- A swath tile with an out-of-range latitude of 120 degrees. -/
def c7Tile : Tile :=
  ⟨TileData.swath [Val.fin 0, Val.fin 120] [Val.fin 0] [Val.fin 0, Val.fin 1]
      TimeField.absent,
   some exSum⟩

/-- C7 is false as stated: with latitudes `[0, 120]` and data `[0, 1]`
the weight of the second sample is `cos 120° = -1/2`, so the weighted mean
is `(0·1 + 1·(-1/2)) / (1 - 1/2) = -1`, strictly below `stats.min = 0`. -/
theorem C7_min_mean_max_cex :
    process "d" c7Tile exDs = Except.ok (outTile "d" c7Tile exAttrs) ∧
    ((outTile "d" c7Tile exAttrs).summary.getD defaultSummary).stats.min = Val.fin 0 ∧
    ((outTile "d" c7Tile exAttrs).summary.getD defaultSummary).stats.mean =
      Val.fin (-1) ∧
    ¬ Val.le ((outTile "d" c7Tile exAttrs).summary.getD defaultSummary).stats.min
        ((outTile "d" c7Tile exAttrs).summary.getD defaultSummary).stats.mean := by
  have hmin : ((outTile "d" c7Tile exAttrs).summary.getD defaultSummary).stats.min
      = Val.fin 0 := by
    simp only [outTile_summary_eq, Option.getD_some, outSummary_stats, outStats_min]
    rw [show nanminCore c7Tile.tileData.flatData = Val.fin (min (0:ℝ) 1) from rfl]
    norm_num
  have hmean : ((outTile "d" c7Tile exAttrs).summary.getD defaultSummary).stats.mean
      = Val.fin (-1) := by
    simp only [outTile_summary_eq, Option.getD_some, outSummary_stats, outStats_mean]
    rw [show meanOf c7Tile.tileData
        = wavg [((0:ℝ), (0:ℝ)), ((1:ℝ), (120:ℝ))] from rfl]
    rw [wavg_of_den_ne (by
      simp only [List.map_cons, List.map_nil, List.sum_cons, List.sum_nil]
      rw [cos_radians_zero, cos_radians_onetwenty]
      norm_num)]
    simp only [List.map_cons, List.map_nil, List.sum_cons, List.sum_nil]
    rw [cos_radians_zero, cos_radians_onetwenty]
    norm_num
  refine ⟨?_, hmin, hmean, ?_⟩
  · exact process_eq_ok (List.cons_ne_nil _ _) (List.cons_ne_nil _ _)
      (List.cons_ne_nil _ _) rfl (by simp [c7Tile, find_time_min_max, TileData.time]) rfl
  · rw [hmin, hmean]
    show ¬ ((0:ℝ) ≤ -1)
    norm_num

theorem C7_min_mean_max_witness :
    process "d" c8wTile exDs = Except.ok (outTile "d" c8wTile exAttrs) ∧
    Val.le ((outTile "d" c8wTile exAttrs).summary.getD defaultSummary).stats.min
      ((outTile "d" c8wTile exAttrs).summary.getD defaultSummary).stats.mean ∧
    Val.le ((outTile "d" c8wTile exAttrs).summary.getD defaultSummary).stats.mean
      ((outTile "d" c8wTile exAttrs).summary.getD defaultSummary).stats.max := by
  have hp : process "d" c8wTile exDs = Except.ok (outTile "d" c8wTile exAttrs) :=
    process_eq_ok (List.cons_ne_nil _ _) (List.cons_ne_nil _ _) (List.cons_ne_nil _ _)
      rfl (by simp [c8wTile, find_time_min_max, TileData.time]) rfl
  obtain ⟨h1, h2⟩ := C7_min_mean_max hp
    (by
      intro v hv
      simp only [c8wTile, TileData.flatData, List.mem_cons, List.not_mem_nil,
        or_false] at hv
      rcases hv with rfl | rfl | rfl <;> exact ⟨rfl, rfl⟩)
    (by simp [c8wTile, TileData.flatData, finList, Val.toFin, List.filterMap_cons])
    (by
      intro v hv
      simp only [c8wTile, TileData.latitude, List.mem_cons, List.not_mem_nil,
        or_false] at hv
      subst hv
      exact ⟨0, rfl, by norm_num, by norm_num⟩)
  exact ⟨hp, h1, h2⟩
